import Mathlib

/-!
Verification of the map-coloring solver repository.

The data model (Node, Edge, MapDefinition, Graph, ColorMapping, Step) is a
shallow embedding of the exported interfaces in the repository's type module.
The graph builder and the backtracking step emitter live in modules that only
have their types and call sites in the repository snapshot, so they are
modelled from the specification (sections 4.1 and 4.2) and marked as such in
their doc comments.  The driver component is embedded from App.tsx.
-/

namespace MapColoring

/-- Embeds the exported Node interface: identifier, display label and a 2D
position that the algorithm never reads. -/
structure Node where
  id : String
  label : String
  x : Int
  y : Int
deriving DecidableEq

/-- Embeds the exported Edge interface: two endpoint identifiers and an
optional rendering hint that the core ignores. -/
structure Edge where
  source : String
  target : String
  path : Option String
deriving DecidableEq

/-- Embeds the exported MapDefinition interface: the raw node and edge lists. -/
structure MapDefinition where
  nodes : List Node
  edges : List Edge
deriving DecidableEq

/-- Embeds the exported Graph interface: node list, edge list and the derived
adjacency index (a total function standing for the Record, with the empty
list as the value on identifiers outside the record). -/
structure Graph where
  nodes : List Node
  edges : List Edge
  adjacencyList : String → List String

/-- Embeds ColorMapping: each identifier is either assigned a color index or
unassigned; identifiers missing from the Record and identifiers mapped to
null both read back as none. -/
def ColorMapping : Type := String → Option Nat

/-- Embeds the step kind union TRY | SUCCESS | BACKTRACK. -/
inductive StepType where
  | TRY
  | SUCCESS
  | BACKTRACK
deriving DecidableEq

/-- Embeds the exported Step interface: kind, node identifier and the color
mapping snapshot taken when the step is emitted. -/
structure Step where
  type : StepType
  nodeId : String
  mapping : ColorMapping

/-- The identifiers of a graph's nodes, in node-list order. -/
def nodeIds (g : Graph) : List String := g.nodes.map Node.id

/-- Modelled from the spec (4.1, missing utils/graphUtils module): record one
directed neighbor entry, de-duplicating repeated pairs. -/
def addNeighbor (adj : String → List String) (a b : String) : String → List String :=
  fun x => if x = a then (if b ∈ adj a then adj a else adj a ++ [b]) else adj x

/-- Modelled from the spec (4.1, missing utils/graphUtils module): insert one
edge into the adjacency index in both directions, skipping self-edges. -/
def insertEdgeAdj (adj : String → List String) (e : Edge) : String → List String :=
  if e.source = e.target then adj
  else addNeighbor (addNeighbor adj e.source e.target) e.target e.source

/-- Modelled from the spec (4.1, missing utils/graphUtils module): the
adjacency index derived from the edge list, starting from empty neighbor
lists. -/
def buildAdjacency (edges : List Edge) : String → List String :=
  edges.foldl insertEdgeAdj (fun _ => [])

/-- Modelled from the spec (4.1, missing utils/graphUtils module): buildGraph
copies the node and edge lists verbatim, derives the adjacency index, and
rejects a map definition whose node identifiers are not unique or whose edges
reference unknown identifiers with a descriptive MalformedGraphError. -/
def buildGraph (md : MapDefinition) : Except String Graph :=
  if (md.nodes.map Node.id).Nodup then
    if ∀ e ∈ md.edges, e.source ∈ md.nodes.map Node.id ∧ e.target ∈ md.nodes.map Node.id then
      Except.ok { nodes := md.nodes, edges := md.edges, adjacencyList := buildAdjacency md.edges }
    else
      Except.error "MalformedGraphError: an edge references an unknown node identifier"
  else
    Except.error "MalformedGraphError: node identifiers are not unique"

/-- Modelled from the spec (4.2.3b, missing services/coloringService module):
candidate color c is feasible for node n when it differs from the color of
every already-assigned neighbor of n. -/
def isSafe (g : Graph) (m : ColorMapping) (n : String) (c : Nat) : Bool :=
  (g.adjacencyList n).all (fun b => m b != some c)

/-- Tentatively assign color c to node n, leaving every other node alone. -/
def assign (m : ColorMapping) (n : String) (c : Nat) : ColorMapping :=
  fun x => if x = n then some c else m x

/-- Modelled from the spec (4.2.3, missing services/coloringService module):
the color loop for one node.  For each remaining candidate color, first emit
a TRY step with the mapping still showing the node unassigned; a feasible
color is assigned and announced with a SUCCESS step before recursing into the
rest of the nodes through the recur continuation; when that recursion fails
the assignment is undone, a BACKTRACK step carries the reverted mapping, and
the loop moves to the next candidate.  An infeasible candidate produces no
step beyond its TRY.  An exhausted color list reports failure. -/
def solveColors (g : Graph) (m : ColorMapping) (n : String)
    (recur : ColorMapping → List Step × Option ColorMapping) :
    List Nat → List Step × Option ColorMapping
  | [] => ([], none)
  | c :: cs =>
      if isSafe g m n c then
        match recur (assign m n c) with
        | (steps, some final) =>
            (Step.mk StepType.TRY n m :: Step.mk StepType.SUCCESS n (assign m n c) :: steps,
              some final)
        | (steps, none) =>
            let next := solveColors g m n recur cs
            (Step.mk StepType.TRY n m :: Step.mk StepType.SUCCESS n (assign m n c) ::
              (steps ++ Step.mk StepType.BACKTRACK n m :: next.1), next.2)
      else
        let next := solveColors g m n recur cs
        (Step.mk StepType.TRY n m :: next.1, next.2)

/-- Modelled from the spec (4.2.1-4.2.2, missing services/coloringService
module): visit the unassigned nodes strictly in list order; when none remain
the current mapping is the successful outcome, otherwise run the color loop
for the next node with colors 0 through k-1 in ascending order. -/
def solveNodes (g : Graph) (k : Nat) : List String → ColorMapping → List Step × Option ColorMapping
  | [], m => ([], some m)
  | n :: rest, m => solveColors g m n (fun m2 => solveNodes g k rest m2) (List.range k)

/-- Modelled from the spec (4.2, missing services/coloringService module):
the whole solve sequence over a graph, starting from the all-unassigned
mapping; the first component is the full list of emitted steps in order and
the second is the final outcome, a complete mapping on success and the
no-solution signal none on failure. -/
def solveMapColoringGenerator (g : Graph) (k : Nat) : List Step × Option ColorMapping :=
  solveNodes g k (nodeIds g) (fun _ => none)

/-- The sequence of observable (kind, nodeId) pairs of a solve sequence. -/
def solveTrace (g : Graph) (k : Nat) : List (StepType × String) :=
  (solveMapColoringGenerator g k).1.map (fun s => (s.type, s.nodeId))

/-- Node list of the triangle example: identifiers A, B, C in that order. -/
def triNodes : List Node :=
  [⟨"A", "A", 0, 0⟩, ⟨"B", "B", 0, 0⟩, ⟨"C", "C", 0, 0⟩]

/-- Edge list of the triangle example: A-B, B-C, A-C. -/
def triEdges : List Edge :=
  [⟨"A", "B", none⟩, ⟨"B", "C", none⟩, ⟨"A", "C", none⟩]

/-- Map definition of the triangle example. -/
def triMd : MapDefinition := ⟨triNodes, triEdges⟩

/-- The graph the builder produces for the triangle example. -/
def triG : Graph := ⟨triNodes, triEdges, buildAdjacency triEdges⟩

/-- One-node map definition whose single edge is the self-edge A-A. -/
def selfMd : MapDefinition := ⟨[⟨"A", "A", 0, 0⟩], [⟨"A", "A", none⟩]⟩

/-- The graph the builder produces for the self-edge map definition. -/
def selfG : Graph := ⟨[⟨"A", "A", 0, 0⟩], [⟨"A", "A", none⟩], buildAdjacency [⟨"A", "A", none⟩]⟩

/-- Every color the mapping assigns lies below k. -/
def BoundedMapping (k : Nat) (m : ColorMapping) : Prop :=
  ∀ x c, m x = some c → c < k

/-- No two adjacent nodes are assigned the same color by the mapping. -/
def NoConflict (g : Graph) (m : ColorMapping) : Prop :=
  ∀ a b, b ∈ g.adjacencyList a → ∀ c, m a = some c → m b ≠ some c

/-- The total coloring f agrees with every assignment the partial mapping has
already made. -/
def ExtendsMap (f : String → Nat) (m : ColorMapping) : Prop :=
  ∀ x c, m x = some c → f x = c

/-- A total coloring of the node identifiers that uses colors below k and
separates the endpoints of every non-self edge. -/
def ProperColoring (g : Graph) (k : Nat) (f : String → Nat) : Prop :=
  (∀ n ∈ g.nodes, f n.id < k) ∧
  (∀ e ∈ g.edges, e.source ≠ e.target → f e.source ≠ f e.target)

/-- The final mapping the solver computes for the triangle with three
colors: A gets 0, then B gets 1, then C gets 2. -/
def triFinal : ColorMapping :=
  assign (assign (assign (fun _ => none) "A" 0) "B" 1) "C" 2

/-- Map definition with two nodes sharing the identifier A. -/
def dupMd : MapDefinition := ⟨[⟨"A", "A", 0, 0⟩, ⟨"A", "A2", 1, 1⟩], []⟩

/-- Map definition whose edge references the unknown identifier B. -/
def danglingMd : MapDefinition := ⟨[⟨"A", "A", 0, 0⟩], [⟨"A", "B", none⟩]⟩

/-- Recursive bound on the number of steps the search can emit: per node in
the remaining list, each of the k candidate colors costs at most a TRY, a
SUCCESS and a BACKTRACK step on top of the recursive work. -/
def stepBound (k : Nat) : Nat → Nat
  | 0 => 0
  | t + 1 => k * (3 + stepBound k t)

/-- Emission-timing discipline of a single step: a TRY or BACKTRACK step
shows its node unassigned in the carried snapshot, a SUCCESS step shows it
assigned. -/
def StepOk (s : Step) : Prop :=
  (s.type = StepType.TRY → s.mapping s.nodeId = none) ∧
  (s.type = StepType.BACKTRACK → s.mapping s.nodeId = none) ∧
  (s.type = StepType.SUCCESS → ∃ c, s.mapping s.nodeId = some c)

/-- Embeds the driver state of App.tsx: the pieces of React state and the
two refs that handleSolve and resetState read or write.  The solver ref
holds the remaining solve sequence, the animation-frame ref the pending
request handle. -/
structure AppState where
  maps : List (String × MapDefinition)
  selectedMapKey : String
  numColors : Nat
  colorMapping : ColorMapping
  isSolving : Bool
  status : String
  highlightedNode : Option String
  solverRef : Option (List Step × Option ColorMapping)
  animationFrameId : Option Nat

/-- Record lookup standing for maps[key] in App.tsx. -/
def lookupMap (maps : List (String × MapDefinition)) (key : String) :
    Option MapDefinition :=
  (maps.find? (fun p => p.1 == key)).map (fun p => p.2)

/-- Embeds resetState from App.tsx: cancel any pending animation frame, drop
the solver, clear the color mapping back to all-unassigned, stop solving,
restore the ready status (except for a missing custom map) and clear the
highlight. -/
def resetState (s : AppState) : AppState :=
  { s with
    solverRef := none
    animationFrameId := none
    colorMapping := fun _ => none
    isSolving := false
    status :=
      if s.selectedMapKey ≠ "custom" ∨ (lookupMap s.maps "custom").isSome then
        "Ready. Select a map and click \"Color Map\" to start."
      else s.status
    highlightedNode := none }

/-- Embeds handleSolve from App.tsx: a guard returns the state unchanged when
a solve is already in progress or no map definition exists for the selected
key; otherwise the state is reset, solving starts, a fresh graph is built and
a fresh solve sequence stored, and an animation frame is scheduled. -/
def handleSolve (s : AppState) : AppState :=
  if s.isSolving ∨ (lookupMap s.maps s.selectedMapKey).isNone then s
  else
    match lookupMap s.maps s.selectedMapKey with
    | none => s
    | some md =>
      let s1 := resetState s
      { s1 with
        isSolving := true
        status := "Starting solver..."
        solverRef := some (match buildGraph md with
          | Except.ok g => solveMapColoringGenerator g s.numColors
          | Except.error _ => ([], none))
        animationFrameId := some 1 }

/-- Driver state in which a solve is marked as already in progress. -/
def busyState : AppState :=
  { maps := []
    selectedMapKey := "usa"
    numColors := 4
    colorMapping := fun _ => none
    isSolving := true
    status := "Starting solver..."
    highlightedNode := none
    solverRef := none
    animationFrameId := some 1 }

theorem mem_addNeighbor (adj : String → List String) (a b y x : String) :
    x ∈ addNeighbor adj a b y ↔ x ∈ adj y ∨ (y = a ∧ x = b) := by
  unfold addNeighbor
  split
  · rename_i hy
    subst hy
    split
    · rename_i hb
      constructor
      · exact fun h => Or.inl h
      · rintro (h | ⟨-, rfl⟩)
        · exact h
        · exact hb
    · simp only [List.mem_append, List.mem_singleton]
      tauto
  · rename_i hy
    constructor
    · exact fun h => Or.inl h
    · rintro (h | ⟨rfl, -⟩)
      · exact h
      · exact absurd rfl hy

theorem mem_insertEdgeAdj (adj : String → List String) (e : Edge) (a x : String) :
    x ∈ insertEdgeAdj adj e a ↔
      x ∈ adj a ∨ (e.source ≠ e.target ∧
        ((a = e.source ∧ x = e.target) ∨ (a = e.target ∧ x = e.source))) := by
  unfold insertEdgeAdj
  by_cases hst : e.source = e.target
  · simp only [if_pos hst]
    tauto
  · simp only [if_neg hst, mem_addNeighbor]
    tauto

theorem mem_foldl_insertEdgeAdj :
    ∀ (es : List Edge) (adj : String → List String) (a x : String),
    x ∈ es.foldl insertEdgeAdj adj a ↔
      x ∈ adj a ∨ ∃ e ∈ es, e.source ≠ e.target ∧
        ((a = e.source ∧ x = e.target) ∨ (a = e.target ∧ x = e.source))
  | [], adj, a, x => by simp
  | e :: es, adj, a, x => by
    simp only [List.foldl_cons]
    rw [mem_foldl_insertEdgeAdj es]
    simp only [mem_insertEdgeAdj, List.mem_cons]
    constructor
    · rintro ((h | h) | ⟨e1, he1, hp⟩)
      · exact Or.inl h
      · exact Or.inr ⟨e, Or.inl rfl, h⟩
      · exact Or.inr ⟨e1, Or.inr he1, hp⟩
    · rintro (h | ⟨e1, rfl | he1, hp⟩)
      · exact Or.inl (Or.inl h)
      · exact Or.inl (Or.inr hp)
      · exact Or.inr ⟨e1, he1, hp⟩

theorem mem_buildAdjacency (es : List Edge) (a x : String) :
    x ∈ buildAdjacency es a ↔
      ∃ e ∈ es, e.source ≠ e.target ∧
        ((a = e.source ∧ x = e.target) ∨ (a = e.target ∧ x = e.source)) := by
  unfold buildAdjacency
  rw [mem_foldl_insertEdgeAdj]
  simp

theorem buildAdjacency_symm (es : List Edge) (a b : String)
    (h : b ∈ buildAdjacency es a) : a ∈ buildAdjacency es b := by
  rw [mem_buildAdjacency] at h ⊢
  obtain ⟨e, he, hne, hp⟩ := h
  exact ⟨e, he, hne, by tauto⟩

theorem buildAdjacency_irrefl (es : List Edge) (a : String) :
    a ∉ buildAdjacency es a := by
  rw [mem_buildAdjacency]
  rintro ⟨e, -, hne, ⟨h1, h2⟩ | ⟨h1, h2⟩⟩
  · exact hne (h1 ▸ h2 ▸ rfl)
  · exact hne (h2 ▸ h1 ▸ rfl)

theorem buildGraph_ok (md : MapDefinition) (g : Graph)
    (h : buildGraph md = Except.ok g) :
    g.nodes = md.nodes ∧ g.edges = md.edges ∧
    g.adjacencyList = buildAdjacency md.edges ∧
    (md.nodes.map Node.id).Nodup ∧
    ∀ e ∈ md.edges, e.source ∈ md.nodes.map Node.id ∧ e.target ∈ md.nodes.map Node.id := by
  unfold buildGraph at h
  split at h
  · split at h
    · rename_i hnd hed
      cases h
      exact ⟨rfl, rfl, rfl, hnd, hed⟩
    · exact absurd h (by simp)
  · exact absurd h (by simp)

theorem isSafe_iff (g : Graph) (m : ColorMapping) (n : String) (c : Nat) :
    isSafe g m n c = true ↔ ∀ b ∈ g.adjacencyList n, m b ≠ some c := by
  simp [isSafe, List.all_eq_true]

theorem solveColors_complete
    (g : Graph) (m : ColorMapping) (n : String) (f : String → Nat)
    (recur : ColorMapping → List Step × Option ColorMapping)
    (hext : ExtendsMap f m)
    (hadj : ∀ b ∈ g.adjacencyList n, f n ≠ f b)
    (hrec : ((recur (assign m n (f n))).2).isSome = true) :
    ∀ cs : List Nat, f n ∈ cs → ((solveColors g m n recur cs).2).isSome = true := by
  have hsafefn : isSafe g m n (f n) = true := by
    rw [isSafe_iff]
    intro b hb heq
    exact hadj b hb (hext b (f n) heq).symm
  intro cs
  induction cs with
  | nil => intro h; exact absurd h (List.not_mem_nil _)
  | cons c cs ih =>
    intro hmem
    by_cases hsafe : isSafe g m n c = true
    · rcases hr : recur (assign m n c) with ⟨steps0, res0⟩
      cases res0 with
      | some final0 =>
        simp only [solveColors, hsafe, if_true, hr]
        rfl
      | none =>
        have hne : c ≠ f n := by
          intro h
          rw [← h, hr] at hrec
          exact Bool.noConfusion hrec
        have hmem2 : f n ∈ cs := by
          rcases List.mem_cons.mp hmem with h | h
          · exact absurd h.symm hne
          · exact h
        simp only [solveColors, hsafe, if_true, hr]
        exact ih hmem2
    · have hne : c ≠ f n := fun h => hsafe (h ▸ hsafefn)
      have hmem2 : f n ∈ cs := by
        rcases List.mem_cons.mp hmem with h | h
        · exact absurd h.symm hne
        · exact h
      have hsafe2 : isSafe g m n c = false := by
        simpa using hsafe
      simp only [solveColors, hsafe2, Bool.false_eq_true, if_false]
      exact ih hmem2

theorem solveNodes_complete
    (g : Graph) (k : Nat) (f : String → Nat)
    (hadjf : ∀ a b, b ∈ g.adjacencyList a → f a ≠ f b) :
    ∀ todo : List String, todo.Nodup → ∀ m : ColorMapping,
      ExtendsMap f m → (∀ x ∈ todo, m x = none) → (∀ x ∈ todo, f x < k) →
      ((solveNodes g k todo m).2).isSome = true := by
  intro todo
  induction todo with
  | nil => intro _ m _ _ _; rfl
  | cons n rest ih =>
    intro hnd m hext hnone hlt
    obtain ⟨hnin, hndr⟩ := List.nodup_cons.mp hnd
    simp only [solveNodes]
    apply solveColors_complete g m n f _ hext (fun b hb => hadjf n b hb)
    · apply ih hndr (assign m n (f n))
      · intro x c hx
        unfold assign at hx
        by_cases hxn : x = n
        · rw [if_pos hxn] at hx
          injection hx with hx2
          rw [hxn, hx2]
        · rw [if_neg hxn] at hx
          exact hext x c hx
      · intro x hx
        have hxn : x ≠ n := by
          intro h
          exact hnin (h ▸ hx)
        unfold assign
        rw [if_neg hxn]
        exact hnone x (List.mem_cons_of_mem n hx)
      · intro x hx
        exact hlt x (List.mem_cons_of_mem n hx)
    · exact List.mem_range.mpr (hlt n (List.mem_cons_self n rest))

theorem noConflict_assign (g : Graph) (m : ColorMapping) (n : String) (c : Nat)
    (hsym : ∀ a b, b ∈ g.adjacencyList a → a ∈ g.adjacencyList b)
    (hirr : ∀ a, a ∉ g.adjacencyList a)
    (hnc : NoConflict g m) (hsafe : isSafe g m n c = true) :
    NoConflict g (assign m n c) := by
  rw [isSafe_iff] at hsafe
  intro a b hab ca ha hb
  unfold assign at ha hb
  by_cases han : a = n
  · subst han
    rw [if_pos rfl] at ha
    injection ha with hca
    by_cases hba : b = a
    · exact hirr a (hba ▸ hab)
    · rw [if_neg hba] at hb
      exact hsafe b hab (by rw [hb, hca])
  · rw [if_neg han] at ha
    by_cases hbn : b = n
    · subst hbn
      rw [if_pos rfl] at hb
      injection hb with hcb
      exact hsafe a (hsym a b hab) (by rw [ha, hcb])
    · rw [if_neg hbn] at hb
      exact hnc a b hab ca ha hb

theorem solveColors_sound
    (g : Graph) (k : Nat) (m : ColorMapping) (n : String)
    (recur : ColorMapping → List Step × Option ColorMapping)
    (R : ColorMapping → Prop)
    (hmn : m n = none)
    (hrec : ∀ c, c < k → isSafe g m n c = true →
        ∀ steps0 final0, recur (assign m n c) = (steps0, some final0) →
        BoundedMapping k final0 ∧ NoConflict g final0 ∧
        (∀ x, assign m n c x ≠ none → final0 x = assign m n c x) ∧ R final0) :
    ∀ cs : List Nat, (∀ c ∈ cs, c < k) →
    ∀ steps final, solveColors g m n recur cs = (steps, some final) →
    BoundedMapping k final ∧ NoConflict g final ∧
    (∀ x, m x ≠ none → final x = m x) ∧ final n ≠ none ∧ R final := by
  intro cs
  induction cs with
  | nil =>
    intro _ steps final h
    simp only [solveColors, Prod.mk.injEq] at h
    exact absurd h.2 (by simp)
  | cons c cs ih =>
    intro hcs steps final hsolve
    have hck : c < k := hcs c (List.mem_cons_self c cs)
    by_cases hsafe : isSafe g m n c = true
    · rcases hr : recur (assign m n c) with ⟨steps0, res0⟩
      cases res0 with
      | some final0 =>
        simp only [solveColors, hsafe, if_true, hr, Prod.mk.injEq] at hsolve
        obtain ⟨hb0, hnc0, hpres0, hR0⟩ := hrec c hck hsafe steps0 final0 hr
        have hfeq : final = final0 := by
          have := hsolve.2
          injection this with h2
          exact h2.symm
        subst hfeq
        refine ⟨hb0, hnc0, ?_, ?_, hR0⟩
        · intro x hx
          have hxn : x ≠ n := fun h => hx (h ▸ hmn)
          have : assign m n c x = m x := by
            unfold assign
            rw [if_neg hxn]
          rw [← this]
          exact hpres0 x (by rw [this]; exact hx)
        · have hassn : assign m n c n = some c := by
            unfold assign
            rw [if_pos rfl]
          rw [hpres0 n (by rw [hassn]; exact Option.noConfusion), hassn]
          exact Option.noConfusion
      | none =>
        simp only [solveColors, hsafe, if_true, hr] at hsolve
        rcases h2 : solveColors g m n recur cs with ⟨steps1, res1⟩
        rw [h2] at hsolve
        simp only [Prod.mk.injEq] at hsolve
        exact ih (fun c2 hc2 => hcs c2 (List.mem_cons_of_mem c hc2)) steps1 final
          (by rw [h2, hsolve.2])
    · have hsafe2 : isSafe g m n c = false := by simpa using hsafe
      simp only [solveColors, hsafe2, Bool.false_eq_true, if_false] at hsolve
      rcases h2 : solveColors g m n recur cs with ⟨steps1, res1⟩
      rw [h2] at hsolve
      simp only [Prod.mk.injEq] at hsolve
      exact ih (fun c2 hc2 => hcs c2 (List.mem_cons_of_mem c hc2)) steps1 final
        (by rw [h2, hsolve.2])

theorem solveNodes_sound
    (g : Graph) (k : Nat)
    (hsym : ∀ a b, b ∈ g.adjacencyList a → a ∈ g.adjacencyList b)
    (hirr : ∀ a, a ∉ g.adjacencyList a) :
    ∀ todo : List String, todo.Nodup → ∀ m : ColorMapping,
      BoundedMapping k m → NoConflict g m → (∀ x ∈ todo, m x = none) →
      ∀ steps final, solveNodes g k todo m = (steps, some final) →
      BoundedMapping k final ∧ NoConflict g final ∧
      (∀ x, m x ≠ none → final x = m x) ∧ (∀ x ∈ todo, final x ≠ none) := by
  intro todo
  induction todo with
  | nil =>
    intro _ m hb hnc _ steps final h
    simp only [solveNodes, Prod.mk.injEq] at h
    have hfeq : final = m := by
      injection h.2 with h2
      exact h2.symm
    subst hfeq
    exact ⟨hb, hnc, fun x _ => rfl, by simp⟩
  | cons n rest ih =>
    intro hnd m hb hnc hnone steps final hsolve
    obtain ⟨hnin, hndr⟩ := List.nodup_cons.mp hnd
    simp only [solveNodes] at hsolve
    have hmn : m n = none := hnone n (List.mem_cons_self n rest)
    have hmain := solveColors_sound g k m n (fun m2 => solveNodes g k rest m2)
      (fun fm => ∀ x ∈ rest, fm x ≠ none) hmn
      ?_ (List.range k) (fun c2 hc2 => List.mem_range.mp hc2) steps final hsolve
    · obtain ⟨hbf, hncf, hpres, hfn, hR⟩ := hmain
      refine ⟨hbf, hncf, hpres, ?_⟩
      intro x hx
      rcases List.mem_cons.mp hx with h | h
      · exact h ▸ hfn
      · exact hR x h
    · intro c hck hsafe steps0 final0 hr0
      have hbass : BoundedMapping k (assign m n c) := by
        intro x c2 hx
        unfold assign at hx
        by_cases hxn : x = n
        · rw [if_pos hxn] at hx
          injection hx with h2
          rw [← h2]
          exact hck
        · rw [if_neg hxn] at hx
          exact hb x c2 hx
      have hnoneass : ∀ x ∈ rest, assign m n c x = none := by
        intro x hx
        have hxn : x ≠ n := by
          intro h
          exact hnin (h ▸ hx)
        unfold assign
        rw [if_neg hxn]
        exact hnone x (List.mem_cons_of_mem n hx)
      exact ih hndr (assign m n c) hbass
        (noConflict_assign g m n c hsym hirr hnc hsafe) hnoneass steps0 final0 hr0

theorem solveColors_assigns
    (g : Graph) (m : ColorMapping) (n : String)
    (recur : ColorMapping → List Step × Option ColorMapping)
    (Q : String → Prop)
    (hrec : ∀ c steps0 final0, recur (assign m n c) = (steps0, some final0) →
        ∀ x, (assign m n c x ≠ none ∨ Q x) → final0 x ≠ none) :
    ∀ cs : List Nat, ∀ steps final, solveColors g m n recur cs = (steps, some final) →
      ∀ x, (m x ≠ none ∨ x = n ∨ Q x) → final x ≠ none := by
  intro cs
  induction cs with
  | nil =>
    intro steps final h
    simp only [solveColors, Prod.mk.injEq] at h
    exact absurd h.2 (by simp)
  | cons c cs ih =>
    intro steps final hsolve x hx
    have hass : ∀ x2, (m x2 ≠ none ∨ x2 = n ∨ Q x2) → (assign m n c x2 ≠ none ∨ Q x2) := by
      intro x2 hx2
      rcases hx2 with h | h | h
      · left
        unfold assign
        by_cases hxn : x2 = n
        · rw [if_pos hxn]
          exact Option.noConfusion
        · rw [if_neg hxn]
          exact h
      · left
        unfold assign
        rw [if_pos h]
        exact Option.noConfusion
      · right
        exact h
    by_cases hsafe : isSafe g m n c = true
    · rcases hr : recur (assign m n c) with ⟨steps0, res0⟩
      cases res0 with
      | some final0 =>
        simp only [solveColors, hsafe, if_true, hr, Prod.mk.injEq] at hsolve
        have hfeq : final = final0 := by
          injection hsolve.2 with h2
          exact h2.symm
        subst hfeq
        exact hrec c steps0 final hr x (hass x hx)
      | none =>
        simp only [solveColors, hsafe, if_true, hr] at hsolve
        rcases h2 : solveColors g m n recur cs with ⟨steps1, res1⟩
        rw [h2] at hsolve
        simp only [Prod.mk.injEq] at hsolve
        exact ih steps1 final (by rw [h2, hsolve.2]) x hx
    · have hsafe2 : isSafe g m n c = false := by simpa using hsafe
      simp only [solveColors, hsafe2, Bool.false_eq_true, if_false] at hsolve
      rcases h2 : solveColors g m n recur cs with ⟨steps1, res1⟩
      rw [h2] at hsolve
      simp only [Prod.mk.injEq] at hsolve
      exact ih steps1 final (by rw [h2, hsolve.2]) x hx

theorem solveNodes_assigns (g : Graph) (k : Nat) :
    ∀ todo : List String, ∀ m : ColorMapping, ∀ steps final,
      solveNodes g k todo m = (steps, some final) →
      ∀ x, (m x ≠ none ∨ x ∈ todo) → final x ≠ none := by
  intro todo
  induction todo with
  | nil =>
    intro m steps final h x hx
    simp only [solveNodes, Prod.mk.injEq] at h
    have hfeq : final = m := by
      injection h.2 with h2
      exact h2.symm
    subst hfeq
    rcases hx with h2 | h2
    · exact h2
    · exact absurd h2 (List.not_mem_nil x)
  | cons n rest ih =>
    intro m steps final hsolve x hx
    simp only [solveNodes] at hsolve
    have hrec : ∀ c steps0 final0,
        solveNodes g k rest (assign m n c) = (steps0, some final0) →
        ∀ x2, (assign m n c x2 ≠ none ∨ x2 ∈ rest) → final0 x2 ≠ none := by
      intro c steps0 final0 hr0 x2 hx2
      exact ih (assign m n c) steps0 final0 hr0 x2 hx2
    apply solveColors_assigns g m n (fun m2 => solveNodes g k rest m2)
      (fun x2 => x2 ∈ rest) hrec (List.range k) steps final hsolve x
    rcases hx with h | h
    · exact Or.inl h
    · rcases List.mem_cons.mp h with h2 | h2
      · exact Or.inr (Or.inl h2)
      · exact Or.inr (Or.inr h2)

theorem buildGraph_adjacency_facts (md : MapDefinition) (g : Graph)
    (h : buildGraph md = Except.ok g) :
    (∀ a b, b ∈ g.adjacencyList a → a ∈ g.adjacencyList b) ∧
    (∀ a, a ∉ g.adjacencyList a) ∧
    (∀ e ∈ g.edges, e.source ≠ e.target →
      e.target ∈ g.adjacencyList e.source ∧ e.source ∈ g.adjacencyList e.target) := by
  obtain ⟨hn, he, hadj, hnd, hed⟩ := buildGraph_ok md g h
  refine ⟨?_, ?_, ?_⟩
  · intro a b hab
    rw [hadj] at hab ⊢
    exact buildAdjacency_symm md.edges a b hab
  · intro a
    rw [hadj]
    exact buildAdjacency_irrefl md.edges a
  · intro e hee hst
    have hee2 : e ∈ md.edges := by rw [← he]; exact hee
    constructor
    · rw [hadj, mem_buildAdjacency]
      exact ⟨e, hee2, hst, Or.inl ⟨rfl, rfl⟩⟩
    · rw [hadj, mem_buildAdjacency]
      exact ⟨e, hee2, hst, Or.inr ⟨rfl, rfl⟩⟩

theorem solve_outcome_valid (md : MapDefinition) (g : Graph) (k : Nat)
    (steps : List Step) (m : ColorMapping)
    (h : buildGraph md = Except.ok g)
    (hs : solveMapColoringGenerator g k = (steps, some m)) :
    (∀ e ∈ g.edges, e.source ≠ e.target → m e.source ≠ m e.target) ∧
    (∀ n ∈ g.nodes, ∃ c, m n.id = some c ∧ c < k) := by
  obtain ⟨hn, he, hadj, hnd, hed⟩ := buildGraph_ok md g h
  obtain ⟨hsym, hirr, hea⟩ := buildGraph_adjacency_facts md g h
  have hnodup : (nodeIds g).Nodup := by
    show (g.nodes.map Node.id).Nodup
    rw [hn]
    exact hnd
  have hsound := solveNodes_sound g k hsym hirr (nodeIds g) hnodup (fun _ => none)
    (fun x c hx => Option.noConfusion hx) (fun a b hab c ha => Option.noConfusion ha)
    (fun x _ => rfl) steps m hs
  obtain ⟨hbf, hncf, hpres, hdom⟩ := hsound
  constructor
  · intro e hee hst
    have hee2 : e ∈ md.edges := by rw [← he]; exact hee
    have hsrc : e.source ∈ nodeIds g := by
      show e.source ∈ g.nodes.map Node.id
      rw [hn]
      exact (hed e hee2).1
    have htgt : e.target ∈ nodeIds g := by
      show e.target ∈ g.nodes.map Node.id
      rw [hn]
      exact (hed e hee2).2
    have h1 := hdom e.source hsrc
    have h2 := hdom e.target htgt
    cases hms : m e.source with
    | none => exact absurd hms h1
    | some cs =>
      cases hmt : m e.target with
      | none => exact absurd hmt h2
      | some ct =>
        have hadj2 : e.target ∈ g.adjacencyList e.source := (hea e hee hst).1
        have hne := hncf e.source e.target hadj2 cs hms
        intro heq
        injection heq with heq2
        exact hne (by rw [hmt, heq2])
  · intro nd hmem
    have hid : nd.id ∈ nodeIds g := by
      show nd.id ∈ g.nodes.map Node.id
      exact List.mem_map_of_mem Node.id hmem
    have h1 := hdom nd.id hid
    cases hmx : m nd.id with
    | none => exact absurd hmx h1
    | some c => exact ⟨c, rfl, hbf nd.id c hmx⟩

theorem solve_finds_coloring (md : MapDefinition) (g : Graph) (k : Nat)
    (h : buildGraph md = Except.ok g) (f : String → Nat)
    (hf : ProperColoring g k f) :
    ∃ steps m, solveMapColoringGenerator g k = (steps, some m) := by
  obtain ⟨hn, he, hadj, hnd, hed⟩ := buildGraph_ok md g h
  have hadjf : ∀ a b, b ∈ g.adjacencyList a → f a ≠ f b := by
    intro a b hab
    rw [hadj, mem_buildAdjacency] at hab
    obtain ⟨e, hee, hst, hor⟩ := hab
    have hee2 : e ∈ g.edges := by rw [he]; exact hee
    rcases hor with ⟨h1, h2⟩ | ⟨h1, h2⟩
    · rw [h1, h2]
      exact hf.2 e hee2 hst
    · rw [h1, h2]
      exact (hf.2 e hee2 hst).symm
  have hnodup : (nodeIds g).Nodup := by
    show (g.nodes.map Node.id).Nodup
    rw [hn]
    exact hnd
  have hbound : ∀ x ∈ nodeIds g, f x < k := by
    intro x hx
    obtain ⟨nd, hmem, rfl⟩ := List.mem_map.mp hx
    exact hf.1 nd hmem
  have hc : ((solveMapColoringGenerator g k).2).isSome = true :=
    solveNodes_complete g k f hadjf (nodeIds g) hnodup (fun _ => none)
      (fun x c hx => Option.noConfusion hx) (fun x _ => rfl) hbound
  cases hcase : (solveMapColoringGenerator g k).2 with
  | none =>
    rw [hcase] at hc
    exact Bool.noConfusion hc
  | some m =>
    refine ⟨(solveMapColoringGenerator g k).1, m, ?_⟩
    rw [← hcase]

/-- C1 (counterexample): a well-formed map definition may carry a self-edge;
the builder accepts it (only the adjacency index skips it), and with k = 1
the search ends in a complete mapping even though the self-edge (A,A) has
both endpoints colored identically, so the claim as stated over every edge of
the graph fails. -/
theorem solve_success_selfEdge_cex :
    buildGraph selfMd = Except.ok selfG ∧
    ∃ m, (solveMapColoringGenerator selfG 1).2 = some m ∧
      (∀ n ∈ nodeIds selfG, m n ≠ none) ∧
      ∃ e ∈ selfG.edges, m e.source = m e.target := by
  refine ⟨rfl, assign (fun _ => none) "A" 0, rfl, by decide, ⟨"A", "A", none⟩, by decide, rfl⟩

/-- C1 (amended): whenever the solve sequence over a built graph ends in a
complete mapping, the endpoints of every edge with two distinct endpoints
receive different colors, and every node is assigned a color index in
[0, k). -/
theorem solve_success_valid (md : MapDefinition) (g : Graph) (k : Nat) (m : ColorMapping)
    (h : buildGraph md = Except.ok g)
    (hs : (solveMapColoringGenerator g k).2 = some m) :
    (∀ e ∈ g.edges, e.source ≠ e.target → m e.source ≠ m e.target) ∧
    (∀ n ∈ g.nodes, ∃ c, m n.id = some c ∧ c < k) := by
  have heq : solveMapColoringGenerator g k = ((solveMapColoringGenerator g k).1, some m) := by
    rw [← hs]
  exact solve_outcome_valid md g k (solveMapColoringGenerator g k).1 m h heq

/-- C1 (witness): the amended validity theorem applied to the triangle graph
with three colors and its computed final mapping. -/
theorem solve_success_valid_witness :
    (∀ e ∈ triG.edges, e.source ≠ e.target → triFinal e.source ≠ triFinal e.target) ∧
    (∀ n ∈ triG.nodes, ∃ c, triFinal n.id = some c ∧ c < 3) :=
  solve_success_valid triMd triG 3 triFinal rfl rfl

/-- C2: over a built graph the search is sound and complete for
k-colorability: when a proper k-coloring exists the sequence ends in a
complete valid mapping, and the no-solution outcome occurs only when no
proper k-coloring exists. -/
theorem solver_sound_and_complete (md : MapDefinition) (g : Graph) (k : Nat)
    (h : buildGraph md = Except.ok g) :
    ((∃ f, ProperColoring g k f) →
      ∃ steps m, solveMapColoringGenerator g k = (steps, some m) ∧
        (∀ e ∈ g.edges, e.source ≠ e.target → m e.source ≠ m e.target) ∧
        (∀ n ∈ g.nodes, ∃ c, m n.id = some c ∧ c < k)) ∧
    ((solveMapColoringGenerator g k).2 = none → ¬∃ f, ProperColoring g k f) := by
  have hcomp : (∃ f, ProperColoring g k f) →
      ∃ steps m, solveMapColoringGenerator g k = (steps, some m) ∧
        (∀ e ∈ g.edges, e.source ≠ e.target → m e.source ≠ m e.target) ∧
        (∀ n ∈ g.nodes, ∃ c, m n.id = some c ∧ c < k) := by
    rintro ⟨f, hf⟩
    obtain ⟨steps, m, heq⟩ := solve_finds_coloring md g k h f hf
    exact ⟨steps, m, heq, solve_outcome_valid md g k steps m h heq⟩
  refine ⟨hcomp, ?_⟩
  intro hnone hex
  obtain ⟨steps, m, heq, -⟩ := hcomp hex
  rw [heq] at hnone
  exact Option.noConfusion hnone

/-- C2 (witness): soundness and completeness instantiated on the triangle
graph with three colors. -/
theorem solver_sound_and_complete_witness :
    ((∃ f, ProperColoring triG 3 f) →
      ∃ steps m, solveMapColoringGenerator triG 3 = (steps, some m) ∧
        (∀ e ∈ triG.edges, e.source ≠ e.target → m e.source ≠ m e.target) ∧
        (∀ n ∈ triG.nodes, ∃ c, m n.id = some c ∧ c < 3)) ∧
    ((solveMapColoringGenerator triG 3).2 = none → ¬∃ f, ProperColoring triG 3 f) :=
  solver_sound_and_complete triMd triG 3 rfl

/-- C3 (counterexample): for the triangle with node order [A,B,C] and k = 3
the emitted (kind, nodeId) sequence is not the six-step golden trace the
claim lists: the color loop emits a TRY step for every candidate color, so
the rejected candidates of B and C each contribute an extra TRY step. -/
theorem triangle_trace_cex :
    solveTrace triG 3 ≠
      [(StepType.TRY, "A"), (StepType.SUCCESS, "A"),
       (StepType.TRY, "B"), (StepType.SUCCESS, "B"),
       (StepType.TRY, "C"), (StepType.SUCCESS, "C")] := by
  decide

/-- C3 (amended): the triangle with node order [A,B,C], edges A-B, B-C, A-C
and k = 3 produces exactly the trace TRY A, SUCCESS A, TRY B, TRY B,
SUCCESS B, TRY C, TRY C, TRY C, SUCCESS C — one TRY per candidate color,
rejections silent — and ends with the complete mapping A to 0, B to 1,
C to 2. -/
theorem triangle_trace :
    buildGraph triMd = Except.ok triG ∧
    solveTrace triG 3 =
      [(StepType.TRY, "A"), (StepType.SUCCESS, "A"),
       (StepType.TRY, "B"), (StepType.TRY, "B"), (StepType.SUCCESS, "B"),
       (StepType.TRY, "C"), (StepType.TRY, "C"), (StepType.TRY, "C"),
       (StepType.SUCCESS, "C")] ∧
    (solveMapColoringGenerator triG 3).2 = some triFinal :=
  ⟨rfl, by decide, rfl⟩

/-- C4: solving is a pure function of the graph and the color count, so two
solve sequences created from equal inputs agree at every position in kind,
node identifier and mapping snapshot, and have equal length. -/
theorem solver_deterministic (g1 g2 : Graph) (k1 k2 : Nat)
    (hg : g1 = g2) (hk : k1 = k2) :
    ((solveMapColoringGenerator g1 k1).1).length = ((solveMapColoringGenerator g2 k2).1).length ∧
    ∀ (i : Nat) (h1 : i < ((solveMapColoringGenerator g1 k1).1).length)
      (h2 : i < ((solveMapColoringGenerator g2 k2).1).length),
      (((solveMapColoringGenerator g1 k1).1).get ⟨i, h1⟩).type =
        (((solveMapColoringGenerator g2 k2).1).get ⟨i, h2⟩).type ∧
      (((solveMapColoringGenerator g1 k1).1).get ⟨i, h1⟩).nodeId =
        (((solveMapColoringGenerator g2 k2).1).get ⟨i, h2⟩).nodeId ∧
      (((solveMapColoringGenerator g1 k1).1).get ⟨i, h1⟩).mapping =
        (((solveMapColoringGenerator g2 k2).1).get ⟨i, h2⟩).mapping := by
  subst hg
  subst hk
  exact ⟨rfl, fun i h1 h2 => ⟨rfl, rfl, rfl⟩⟩

/-- C4 (witness): determinism instantiated on the triangle with three
colors. -/
theorem solver_deterministic_witness :
    ((solveMapColoringGenerator triG 3).1).length = ((solveMapColoringGenerator triG 3).1).length ∧
    ∀ (i : Nat) (h1 : i < ((solveMapColoringGenerator triG 3).1).length)
      (h2 : i < ((solveMapColoringGenerator triG 3).1).length),
      (((solveMapColoringGenerator triG 3).1).get ⟨i, h1⟩).type =
        (((solveMapColoringGenerator triG 3).1).get ⟨i, h2⟩).type ∧
      (((solveMapColoringGenerator triG 3).1).get ⟨i, h1⟩).nodeId =
        (((solveMapColoringGenerator triG 3).1).get ⟨i, h2⟩).nodeId ∧
      (((solveMapColoringGenerator triG 3).1).get ⟨i, h1⟩).mapping =
        (((solveMapColoringGenerator triG 3).1).get ⟨i, h2⟩).mapping :=
  solver_deterministic triG triG 3 3 rfl rfl

/-- C5: the final outcome of a solve sequence is either the absent value
none — the failure signal — or a mapping that assigns every node of the
graph; failure is therefore signalled by an absent mapping, never by a
present mapping whose nodes are all unassigned. -/
theorem solve_failure_outcome_absent (g : Graph) (k : Nat) :
    (solveMapColoringGenerator g k).2 = none ∨
      ∃ m, (solveMapColoringGenerator g k).2 = some m ∧ ∀ n ∈ nodeIds g, m n ≠ none := by
  cases hcase : (solveMapColoringGenerator g k).2 with
  | none => exact Or.inl rfl
  | some m =>
    refine Or.inr ⟨m, rfl, ?_⟩
    intro n hn
    have heq : solveNodes g k (nodeIds g) (fun _ => none) =
        ((solveMapColoringGenerator g k).1, some m) := by
      rw [← hcase]
      exact Prod.mk.eta.symm
    exact solveNodes_assigns g k (nodeIds g) (fun _ => none)
      (solveMapColoringGenerator g k).1 m heq n (Or.inr hn)

/-- C6 (counterexample): the builder accepts the map definition whose only
edge is the self-edge A-A, yet A does not appear in its own neighbor list,
so the symmetry claim quantified over every input edge fails on self-edges. -/
theorem buildGraph_selfEdge_adjacency_cex :
    buildGraph selfMd = Except.ok selfG ∧
    (Edge.mk "A" "A" none) ∈ selfG.edges ∧
    "A" ∉ selfG.adjacencyList "A" :=
  ⟨rfl, by decide, by decide⟩

/-- C6 (amended): in every graph the builder produces, each input edge with
two distinct endpoints appears in the adjacency index in both directions,
regardless of its declared direction. -/
theorem buildGraph_adjacency_symmetric (md : MapDefinition) (g : Graph)
    (h : buildGraph md = Except.ok g) :
    ∀ e ∈ g.edges, e.source ≠ e.target →
      e.target ∈ g.adjacencyList e.source ∧ e.source ∈ g.adjacencyList e.target :=
  (buildGraph_adjacency_facts md g h).2.2

/-- C6 (witness): adjacency symmetry instantiated on the triangle's edge
A-B. -/
theorem buildGraph_adjacency_symmetric_witness :
    "B" ∈ triG.adjacencyList "A" ∧ "A" ∈ triG.adjacencyList "B" :=
  buildGraph_adjacency_symmetric triMd triG rfl (Edge.mk "A" "B" none) (by decide) (by decide)

/-- C7: the builder rejects a malformed map definition — duplicate node
identifiers, or an edge endpoint that is not a known node identifier — with
a descriptive error value instead of building a graph. -/
theorem buildGraph_rejects_malformed (md : MapDefinition)
    (h : ¬(md.nodes.map Node.id).Nodup ∨
      ∃ e ∈ md.edges, e.source ∉ md.nodes.map Node.id ∨ e.target ∉ md.nodes.map Node.id) :
    ∃ msg, buildGraph md = Except.error msg := by
  unfold buildGraph
  by_cases h1 : (md.nodes.map Node.id).Nodup
  · rw [if_pos h1]
    by_cases h2 : ∀ e ∈ md.edges, e.source ∈ md.nodes.map Node.id ∧ e.target ∈ md.nodes.map Node.id
    · rcases h with h | ⟨e, hee, hor⟩
      · exact absurd h1 h
      · rcases hor with h3 | h3
        · exact absurd (h2 e hee).1 h3
        · exact absurd (h2 e hee).2 h3
    · rw [if_neg h2]
      exact ⟨_, rfl⟩
  · rw [if_neg h1]
    exact ⟨_, rfl⟩

/-- C7 (witness): the duplicate-identifier map definition is rejected. -/
theorem buildGraph_rejects_malformed_witness :
    ∃ msg, buildGraph dupMd = Except.error msg :=
  buildGraph_rejects_malformed dupMd (Or.inl (by decide))

theorem solveColors_length (g : Graph) (m : ColorMapping) (n : String)
    (recur : ColorMapping → List Step × Option ColorMapping) (B : Nat)
    (hrec : ∀ m2, ((recur m2).1).length ≤ B) :
    ∀ cs : List Nat, ((solveColors g m n recur cs).1).length ≤ cs.length * (3 + B) := by
  intro cs
  induction cs with
  | nil => simp [solveColors]
  | cons c cs ih =>
    have hmul : (cs.length + 1) * (3 + B) = cs.length * (3 + B) + (3 + B) := Nat.succ_mul _ _
    by_cases hsafe : isSafe g m n c = true
    · rcases hr : recur (assign m n c) with ⟨steps0, res0⟩
      have h0 : steps0.length ≤ B := by
        have := hrec (assign m n c)
        rw [hr] at this
        exact this
      cases res0 with
      | some final0 =>
        simp only [solveColors, hsafe, if_true, hr, List.length_cons]
        rw [hmul]
        omega
      | none =>
        simp only [solveColors, hsafe, if_true, hr, List.length_cons, List.length_append]
        rw [hmul]
        omega
    · have hsafe2 : isSafe g m n c = false := by simpa using hsafe
      simp only [solveColors, hsafe2, Bool.false_eq_true, if_false, List.length_cons]
      rw [hmul]
      omega

theorem solveNodes_length (g : Graph) (k : Nat) :
    ∀ todo : List String, ∀ m : ColorMapping,
      ((solveNodes g k todo m).1).length ≤ stepBound k todo.length := by
  intro todo
  induction todo with
  | nil => intro m; simp [solveNodes, stepBound]
  | cons n rest ih =>
    intro m
    have := solveColors_length g m n (fun m2 => solveNodes g k rest m2)
      (stepBound k rest.length) (fun m2 => ih m2) (List.range k)
    rw [List.length_range] at this
    simpa [solveNodes, stepBound] using this

/-- C8: every solve sequence is finite and its number of emitted steps is
bounded by a function of the graph's node count and k. -/
theorem solve_steps_finite (g : Graph) (k : Nat) :
    ((solveMapColoringGenerator g k).1).length ≤ stepBound k g.nodes.length := by
  have h := solveNodes_length g k (nodeIds g) (fun _ => none)
  have h2 : (nodeIds g).length = g.nodes.length := by simp [nodeIds]
  rw [h2] at h
  exact h

theorem stepOk_try (n : String) (m : ColorMapping) (h : m n = none) :
    StepOk (Step.mk StepType.TRY n m) :=
  ⟨fun _ => h, fun h2 => StepType.noConfusion h2, fun h2 => StepType.noConfusion h2⟩

theorem stepOk_success (n : String) (m : ColorMapping) (c : Nat) (h : m n = some c) :
    StepOk (Step.mk StepType.SUCCESS n m) :=
  ⟨fun h2 => StepType.noConfusion h2, fun h2 => StepType.noConfusion h2, fun _ => ⟨c, h⟩⟩

theorem stepOk_backtrack (n : String) (m : ColorMapping) (h : m n = none) :
    StepOk (Step.mk StepType.BACKTRACK n m) :=
  ⟨fun h2 => StepType.noConfusion h2, fun _ => h, fun h2 => StepType.noConfusion h2⟩

theorem solveColors_stepOk (g : Graph) (m : ColorMapping) (n : String)
    (recur : ColorMapping → List Step × Option ColorMapping)
    (hmn : m n = none)
    (hrec : ∀ c : Nat, ∀ s ∈ (recur (assign m n c)).1, StepOk s) :
    ∀ cs : List Nat, ∀ s ∈ (solveColors g m n recur cs).1, StepOk s := by
  intro cs
  induction cs with
  | nil =>
    intro s hs
    simp [solveColors] at hs
  | cons c cs ih =>
    have hassn : assign m n c n = some c := by
      unfold assign
      rw [if_pos rfl]
    intro s hs
    by_cases hsafe : isSafe g m n c = true
    · rcases hr : recur (assign m n c) with ⟨steps0, res0⟩
      have hrec2 : ∀ s2 ∈ steps0, StepOk s2 := by
        intro s2 hs2
        have := hrec c
        rw [hr] at this
        exact this s2 hs2
      cases res0 with
      | some final0 =>
        simp only [solveColors, hsafe, if_true, hr, List.mem_cons] at hs
        rcases hs with rfl | rfl | hs
        · exact stepOk_try n m hmn
        · exact stepOk_success n (assign m n c) c hassn
        · exact hrec2 s hs
      | none =>
        simp only [solveColors, hsafe, if_true, hr, List.mem_cons, List.mem_append] at hs
        rcases hs with rfl | rfl | (hs | rfl | hs)
        · exact stepOk_try n m hmn
        · exact stepOk_success n (assign m n c) c hassn
        · exact hrec2 s hs
        · exact stepOk_backtrack n m hmn
        · exact ih s hs
    · have hsafe2 : isSafe g m n c = false := by simpa using hsafe
      simp only [solveColors, hsafe2, Bool.false_eq_true, if_false, List.mem_cons] at hs
      rcases hs with rfl | hs
      · exact stepOk_try n m hmn
      · exact ih s hs

theorem solveNodes_stepOk (g : Graph) (k : Nat) :
    ∀ todo : List String, todo.Nodup → ∀ m : ColorMapping,
      (∀ x ∈ todo, m x = none) →
      ∀ s ∈ (solveNodes g k todo m).1, StepOk s := by
  intro todo
  induction todo with
  | nil =>
    intro _ m _ s hs
    simp [solveNodes] at hs
  | cons n rest ih =>
    intro hnd m hnone s hs
    obtain ⟨hnin, hndr⟩ := List.nodup_cons.mp hnd
    simp only [solveNodes] at hs
    refine solveColors_stepOk g m n (fun m2 => solveNodes g k rest m2)
      (hnone n (List.mem_cons_self n rest)) ?_ (List.range k) s hs
    intro c s2 hs2
    refine ih hndr (assign m n c) ?_ s2 hs2
    intro x hx
    have hxn : x ≠ n := by
      intro h
      exact hnin (h ▸ hx)
    unfold assign
    rw [if_neg hxn]
    exact hnone x (List.mem_cons_of_mem n hx)

/-- C9: in every emitted step of a solve sequence over a graph with unique
node identifiers, the mapping snapshot reflects the emission timing: a TRY
step and a BACKTRACK step carry their node as unassigned, and a SUCCESS step
carries its node as assigned. -/
theorem solve_step_timing (g : Graph) (k : Nat)
    (hnd : (nodeIds g).Nodup) :
    ∀ s ∈ (solveMapColoringGenerator g k).1,
      (s.type = StepType.TRY → s.mapping s.nodeId = none) ∧
      (s.type = StepType.BACKTRACK → s.mapping s.nodeId = none) ∧
      (s.type = StepType.SUCCESS → ∃ c, s.mapping s.nodeId = some c) := by
  intro s hs
  exact solveNodes_stepOk g k (nodeIds g) hnd (fun _ => none) (fun x _ => rfl) s hs

/-- C9 (witness): emission timing instantiated on the first emitted step of
the triangle solve, the TRY step for A with the all-unassigned snapshot. -/
theorem solve_step_timing_witness :
    ((Step.mk StepType.TRY "A" (fun _ => none)).type = StepType.TRY →
      (Step.mk StepType.TRY "A" (fun _ => none)).mapping
        (Step.mk StepType.TRY "A" (fun _ => none)).nodeId = none) ∧
    ((Step.mk StepType.TRY "A" (fun _ => none)).type = StepType.BACKTRACK →
      (Step.mk StepType.TRY "A" (fun _ => none)).mapping
        (Step.mk StepType.TRY "A" (fun _ => none)).nodeId = none) ∧
    ((Step.mk StepType.TRY "A" (fun _ => none)).type = StepType.SUCCESS →
      ∃ c, (Step.mk StepType.TRY "A" (fun _ => none)).mapping
        (Step.mk StepType.TRY "A" (fun _ => none)).nodeId = some c) :=
  solve_step_timing triG 3 (by decide) (Step.mk StepType.TRY "A" (fun _ => none))
    (List.mem_cons_self _ _)

/-- C10: calling handleSolve while a solve is already in progress, or while
no map definition exists for the selected key, leaves the driver state
untouched — nothing is reset, no solver is created and no animation frame is
scheduled. -/
theorem handleSolve_noop (s : AppState)
    (h : s.isSolving = true ∨ lookupMap s.maps s.selectedMapKey = none) :
    handleSolve s = s := by
  unfold handleSolve
  rw [if_pos]
  rcases h with h | h
  · exact Or.inl h
  · exact Or.inr (by rw [h]; rfl)

/-- C10 (witness): handleSolve is a no-op on the busy driver state. -/
theorem handleSolve_noop_witness : handleSolve busyState = busyState :=
  handleSolve_noop busyState (Or.inl rfl)

end MapColoring
